import Mathlib

/-!
Shallow embedding of `src/core.py` (a skeletal peer network: typed nodes,
symmetric `connect`, recursive flood `send_message`, role reassignment
`set_role`, and the receiver's printed acknowledgment).

Modelling choices:
* Python objects live on a heap: `NetState.nodes` is the list of all node
  objects ever constructed, and a *node reference* is an index into that
  list.  Python's `is` / default `==` (object identity) is equality of
  indices; the `id` field is ordinary data and may repeat across objects.
* `Node.connect` is mutually recursive in Python (`node.connect(self)`),
  but from any state the nesting depth is at most 3 calls before the
  membership test stops it, so `connect` is the exact unrolling
  `connectAux` with fuel 3 (the fuel is never exhausted: the case
  analysis in `connect_cases` below shows the nesting always stops).
* `Node.send_message` recurses without any structural bound, so it is
  embedded with explicit fuel counting Python stack frames: `none` means
  the recursion depth exceeded the fuel.  The state is threaded through
  (the Python methods could mutate it; they in fact do not, which is
  proved, not assumed).  The observable behaviour is a trace of events:
  `Event.recv r s m` records the call `r.receive_message(m, s)` (whose
  only effect is the printed line, rendered by `receiveLine`), and
  `Event.call p` records a recursive invocation `p.send_message(...)`
  (instrumentation for trace properties; it prints nothing).
* `Node.set_role` raises `ValueError` when the current role is
  `WORD_GENERATOR`; the `raise` happens before the assignment, so on the
  error path no state is produced (the caller's state is unchanged).
-/

/-- The `Roles` enum of `core.py`. -/
inductive Roles where
  | ENCRYPTER
  | SENDER
  | RECEIVER
  | WORD_GENERATOR
deriving DecidableEq

/-- One Python `Node` object: fields `id`, `peers`, `role` as set by
`Node.__init__` (peers are references = heap indices, in insertion order). -/
structure Node where
  id : Int
  peers : List Nat
  role : Roles
deriving DecidableEq

/-- The heap of constructed node objects; a reference is an index. -/
structure NetState where
  nodes : List Node
deriving DecidableEq

/-- Out-of-range reads never happen for references obtained from real
objects; a default keeps the lookups total. -/
def defaultNode : Node := { id := 0, peers := [], role := Roles.SENDER }

def NetState.node (st : NetState) (a : Nat) : Node := st.nodes.getD a defaultNode

def NetState.peers (st : NetState) (a : Nat) : List Nat := (st.node a).peers

def NetState.role (st : NetState) (a : Nat) : Roles := (st.node a).role

def NetState.idOf (st : NetState) (a : Nat) : Int := (st.node a).id

/-- `self.peers.append(node)` on the object at index `a`. -/
def NetState.addPeer (st : NetState) (a b : Nat) : NetState :=
  { nodes := st.nodes.set a { st.node a with peers := (st.node a).peers ++ [b] } }

/-- `self.role = role` on the object at index `n`. -/
def NetState.setRoleField (st : NetState) (n : Nat) (r : Roles) : NetState :=
  { nodes := st.nodes.set n { st.node n with role := r } }

/-- `Node.connect`, unrolled: `if node not in self.peers:
self.peers.append(node); node.connect(self)`.  The membership test is by
object identity (Python's default `==`), i.e. by reference. -/
def connectAux : Nat → NetState → Nat → Nat → NetState
  | 0, st, _, _ => st
  | f + 1, st, a, b =>
    if b ∈ st.peers a then st
    else connectAux f (st.addPeer a b) b a

/-- `a.connect(b)`.  Fuel 3 is exact: the third nested call always finds
the membership test true (the edge was appended by the first call). -/
def connect (st : NetState) (a b : Nat) : NetState := connectAux 3 st a b

/-- Observable trace of a `send_message` run. -/
inductive Event where
  | recv (receiver sender : Nat) (message : String)
  | call (callee : Nat)
deriving DecidableEq

/-- The `for peer in self.peers` loop body of `Node.send_message`,
parametrised by the recursive call `recur` (= `send_message` at the next
stack depth).  Branches mirror the source exactly:
`if peer.role == Roles.RECEIVER: peer.receive_message(message, sender)`
— note it passes `sender`, the argument of the current frame —
`elif peer is not self: peer.send_message(message, self)`. -/
def sendLoop (recur : NetState → Nat → String → Nat → Option (NetState × List Event))
    (selfR : Nat) (msg : String) (sender : Nat) :
    NetState → List Nat → Option (NetState × List Event)
  | st, [] => some (st, [])
  | st, peer :: rest =>
    if st.role peer = Roles.RECEIVER then
      match sendLoop recur selfR msg sender st rest with
      | none => none
      | some (st1, evs) => some (st1, Event.recv peer sender msg :: evs)
    else if peer ≠ selfR then
      match recur st peer msg selfR with
      | none => none
      | some (st1, evs1) =>
        match sendLoop recur selfR msg sender st1 rest with
        | none => none
        | some (st2, evs2) => some (st2, Event.call peer :: (evs1 ++ evs2))
    else
      sendLoop recur selfR msg sender st rest

/-- `Node.send_message(message, sender)` run on the object `selfR`, with
`fuel` bounding the recursion depth (`none` = depth exceeded, the Python
`RecursionError`). -/
def send_message : Nat → NetState → Nat → String → Nat → Option (NetState × List Event)
  | 0, _, _, _, _ => none
  | f + 1, st, selfR, msg, sender =>
    sendLoop (send_message f) selfR msg sender st (st.peers selfR)

/-- `Node.set_role`: raises (before any mutation) iff the current role is
`WORD_GENERATOR`. -/
def set_role (st : NetState) (n : Nat) (r : Roles) : Except String NetState :=
  if st.role n = Roles.WORD_GENERATOR then
    Except.error "WordGenerator role cannot be changed."
  else
    Except.ok (st.setRoleField n r)

/-- The line printed by `Receiver.receive_message(message, sender)`. -/
def receiveLine (st : NetState) (receiver sender : Nat) (message : String) : String :=
  "Receiver id=" ++ toString (st.idOf receiver) ++
    " received a message from sender id=" ++ toString (st.idOf sender) ++ ": " ++ message

/-- What an event prints (recursive calls print nothing themselves). -/
def renderEvent (st : NetState) : Event → Option String
  | Event.recv r s m => some (receiveLine st r s m)
  | Event.call _ => none

/-- The stdout lines of a trace, in order. -/
def printedLines (st : NetState) (evs : List Event) : List String :=
  evs.filterMap (renderEvent st)

/-- Invariant of states reachable through the constructor and `connect`:
peer lists are duplicate-free, hold valid references, and are symmetric. -/
def Wf (st : NetState) : Prop :=
  ∀ a, a < st.nodes.length →
    (st.peers a).Nodup ∧ ∀ b, b ∈ st.peers a → b < st.nodes.length ∧ a ∈ st.peers b

instance (st : NetState) : Decidable (Wf st) := by
  unfold Wf; infer_instance

/-! Concrete scenarios from the spec (objects built exactly as described:
fresh `Sender`/`Receiver` objects, then `connect` calls). -/

/-- Chain scenario heap right after construction: A = ref 0 (`Sender`,
id 10), B = ref 1 (`Sender`, id 20), C = ref 2 (`Receiver`, id 30). -/
def chainInit : NetState :=
  ⟨[⟨10, [], Roles.SENDER⟩, ⟨20, [], Roles.SENDER⟩, ⟨30, [], Roles.RECEIVER⟩]⟩

/-- Chain A–B–C after `A.connect(B); B.connect(C)`. -/
def chainSt : NetState := connect (connect chainInit 0 1) 1 2

/-- Star scenario heap: H = ref 0 (`Sender`, id 100), R1 = ref 1
(`Receiver`, id 101), R2 = ref 2 (`Receiver`, id 102). -/
def starInit : NetState :=
  ⟨[⟨100, [], Roles.SENDER⟩, ⟨101, [], Roles.RECEIVER⟩, ⟨102, [], Roles.RECEIVER⟩]⟩

/-- Star after `H.connect(R1); H.connect(R2)`. -/
def starA : NetState := connect (connect starInit 0 1) 0 2

/-- Star after `H.connect(R2); H.connect(R1)` (other insertion order). -/
def starB : NetState := connect (connect starInit 0 2) 0 1

/-- Triangle scenario heap: three `Sender` objects, ids 1, 2, 3. -/
def triInit : NetState :=
  ⟨[⟨1, [], Roles.SENDER⟩, ⟨2, [], Roles.SENDER⟩, ⟨3, [], Roles.SENDER⟩]⟩

/-- Triangle after `A.connect(B); B.connect(C); C.connect(A)`. -/
def triSt : NetState := connect (connect (connect triInit 0 1) 1 2) 2 0

/-- Heap for exercising a forwarded send: S = ref 0 (`Sender`, id 1),
N = ref 1 (`Sender`, id 2), R = ref 2 (`Receiver`, id 3). -/
def c2Init : NetState :=
  ⟨[⟨1, [], Roles.SENDER⟩, ⟨2, [], Roles.SENDER⟩, ⟨3, [], Roles.RECEIVER⟩]⟩

/-- After `N.connect(R)`: N's only peer is the receiver R. -/
def c2St : NetState := connect c2Init 1 2

/-- A hand-laid state whose traversal terminates yet performs one
recursive call: ref 0 forwards to ref 1, whose only peer is the
receiver ref 2. -/
def c8St : NetState :=
  ⟨[⟨1, [1], Roles.SENDER⟩, ⟨2, [2], Roles.SENDER⟩, ⟨3, [], Roles.RECEIVER⟩]⟩

/-- Two-object heap: a sender and a word generator. -/
def wSt : NetState := ⟨[⟨1, [], Roles.SENDER⟩, ⟨2, [], Roles.WORD_GENERATOR⟩]⟩

/-- Two unconnected sender objects. -/
def wSt2 : NetState := ⟨[⟨1, [], Roles.SENDER⟩, ⟨2, [], Roles.SENDER⟩]⟩

/-- Three objects where refs 1 and 2 are distinct objects sharing id 9. -/
def sameIdInit : NetState :=
  ⟨[⟨7, [], Roles.SENDER⟩, ⟨9, [], Roles.SENDER⟩, ⟨9, [], Roles.SENDER⟩]⟩

example : chainSt = ⟨[⟨10, [1], Roles.SENDER⟩, ⟨20, [0, 2], Roles.SENDER⟩,
    ⟨30, [1], Roles.RECEIVER⟩]⟩ := by decide

example : starA = ⟨[⟨100, [1, 2], Roles.SENDER⟩, ⟨101, [0], Roles.RECEIVER⟩,
    ⟨102, [0], Roles.RECEIVER⟩]⟩ := by decide

example : triSt = ⟨[⟨1, [1, 2], Roles.SENDER⟩, ⟨2, [0, 2], Roles.SENDER⟩,
    ⟨3, [1, 0], Roles.SENDER⟩]⟩ := by decide

example :
    send_message 1 starA 0 "x" 0 =
      some (starA, [Event.recv 1 0 "x", Event.recv 2 0 "x"]) := by decide

example : send_message 50 chainSt 0 "hi" 0 = none := by decide

/-! Heap access lemmas. -/

lemma getD_set_self {α : Type} (x d : α) :
    ∀ (l : List α) (i : Nat), i < l.length → (l.set i x).getD i d = x := by
  intro l
  induction l with
  | nil => intro i h; simp at h
  | cons hd tl ih =>
    intro i h
    cases i with
    | zero => simp
    | succ n =>
      have hn : n < tl.length := by simpa using h
      simpa using ih n hn

lemma getD_set_ne {α : Type} (x d : α) :
    ∀ (l : List α) (i j : Nat), i ≠ j → (l.set i x).getD j d = l.getD j d := by
  intro l
  induction l with
  | nil => intro i j _; simp
  | cons hd tl ih =>
    intro i j hij
    cases i with
    | zero =>
      cases j with
      | zero => exact absurd rfl hij
      | succ m => simp
    | succ n =>
      cases j with
      | zero => simp
      | succ m =>
        have h' : n ≠ m := fun h => hij (by rw [h])
        simpa using ih n m h'

lemma length_addPeer (st : NetState) (a b : Nat) :
    (st.addPeer a b).nodes.length = st.nodes.length := by
  simp [NetState.addPeer]

lemma node_addPeer_self (st : NetState) (a b : Nat) (ha : a < st.nodes.length) :
    (st.addPeer a b).node a = { st.node a with peers := (st.node a).peers ++ [b] } := by
  simp only [NetState.addPeer, NetState.node]
  exact getD_set_self _ _ _ _ ha

lemma node_addPeer_ne (st : NetState) (a b c : Nat) (h : a ≠ c) :
    (st.addPeer a b).node c = st.node c := by
  simp only [NetState.addPeer, NetState.node]
  exact getD_set_ne _ _ _ _ _ h

lemma peers_addPeer_self (st : NetState) (a b : Nat) (ha : a < st.nodes.length) :
    (st.addPeer a b).peers a = st.peers a ++ [b] := by
  simp [NetState.peers, node_addPeer_self st a b ha]

lemma peers_addPeer_ne (st : NetState) (a b c : Nat) (h : a ≠ c) :
    (st.addPeer a b).peers c = st.peers c := by
  simp [NetState.peers, node_addPeer_ne st a b c h]

lemma role_addPeer (st : NetState) (a b n : Nat) :
    (st.addPeer a b).role n = st.role n := by
  by_cases h : a = n
  · subst h
    by_cases ha : a < st.nodes.length
    · simp [NetState.role, node_addPeer_self st a b ha]
    · have : st.nodes.length ≤ a := Nat.le_of_not_lt ha
      simp [NetState.addPeer, NetState.role, NetState.node, List.set_eq_of_length_le this]
  · simp [NetState.role, node_addPeer_ne st a b n h]

lemma role_setRoleField_self (st : NetState) (n : Nat) (r : Roles)
    (hn : n < st.nodes.length) : (st.setRoleField n r).role n = r := by
  simp only [NetState.setRoleField, NetState.role, NetState.node]
  rw [getD_set_self _ _ _ _ hn]

/-! `connect` computation: from any state satisfying the symmetry
half-invariant, `a.connect(b)` (with `a ≠ b`) either is a no-op (already
connected) or appends each endpoint to the other's peer list. -/

lemma connect_cases (st : NetState) (a b : Nat) (ha : a < st.nodes.length)
    (hab : a ≠ b) (hs : a ∈ st.peers b → b ∈ st.peers a) :
    (b ∈ st.peers a ∧ connect st a b = st) ∨
      (b ∉ st.peers a ∧ a ∉ st.peers b ∧
        connect st a b = (st.addPeer a b).addPeer b a) := by
  by_cases hmem : b ∈ st.peers a
  · exact Or.inl ⟨hmem, by simp [connect, connectAux, hmem]⟩
  · have hnb : a ∉ st.peers b := fun h => hmem (hs h)
    refine Or.inr ⟨hmem, hnb, ?_⟩
    have hba : b ≠ a := fun h => hab h.symm
    have h1 : (st.addPeer a b).peers b = st.peers b := peers_addPeer_ne st a b b hab
    have h2 : ((st.addPeer a b).addPeer b a).peers a = (st.addPeer a b).peers a :=
      peers_addPeer_ne (st.addPeer a b) b a a hba
    have h3 : (st.addPeer a b).peers a = st.peers a ++ [b] :=
      peers_addPeer_self st a b ha
    have hmem2 : b ∈ ((st.addPeer a b).addPeer b a).peers a := by
      rw [h2, h3]; exact List.mem_append_right _ (List.mem_singleton.mpr rfl)
    simp only [connect, connectAux, if_neg hmem]
    rw [if_neg (by rw [h1]; exact hnb)]
    rw [if_pos hmem2]

lemma length_connectAux : ∀ (f : Nat) (st : NetState) (a b : Nat),
    (connectAux f st a b).nodes.length = st.nodes.length := by
  intro f
  induction f with
  | zero => intro st a b; rfl
  | succ g ih =>
    intro st a b
    simp only [connectAux]
    by_cases h : b ∈ st.peers a
    · rw [if_pos h]
    · rw [if_neg h, ih, length_addPeer]

lemma length_connect (st : NetState) (a b : Nat) :
    (connect st a b).nodes.length = st.nodes.length :=
  length_connectAux 3 st a b

lemma role_connectAux : ∀ (f : Nat) (st : NetState) (a b n : Nat),
    (connectAux f st a b).role n = st.role n := by
  intro f
  induction f with
  | zero => intro st a b n; rfl
  | succ g ih =>
    intro st a b n
    simp only [connectAux]
    by_cases h : b ∈ st.peers a
    · rw [if_pos h]
    · rw [if_neg h, ih, role_addPeer]

lemma role_connect (st : NetState) (a b n : Nat) :
    (connect st a b).role n = st.role n :=
  role_connectAux 3 st a b n

/-- After `a.connect(b)` from a well-formed state, each endpoint is in
the other's peer list. -/
lemma connect_mem (st : NetState) (a b : Nat) (ha : a < st.nodes.length)
    (hb : b < st.nodes.length) (hab : a ≠ b) (hwf : Wf st) :
    b ∈ (connect st a b).peers a ∧ a ∈ (connect st a b).peers b := by
  have hs : a ∈ st.peers b → b ∈ st.peers a := fun h => ((hwf b hb).2 a h).2
  rcases connect_cases st a b ha hab hs with ⟨hmem, heq⟩ | ⟨_, _, heq⟩
  · rw [heq]
    exact ⟨hmem, ((hwf a ha).2 b hmem).2⟩
  · rw [heq]
    constructor
    · rw [peers_addPeer_ne (st.addPeer a b) b a a (fun h => hab h.symm),
        peers_addPeer_self st a b ha]
      exact List.mem_append_right _ (List.mem_singleton.mpr rfl)
    · rw [peers_addPeer_self (st.addPeer a b) b a (by rw [length_addPeer]; exact hb),
        peers_addPeer_ne st a b b hab]
      exact List.mem_append_right _ (List.mem_singleton.mpr rfl)

/-- `a.connect(b)` is a no-op when `b` is already a peer of `a`. -/
lemma connect_noop (st : NetState) (a b : Nat) (hmem : b ∈ st.peers a) :
    connect st a b = st := by
  simp [connect, connectAux, hmem]

/-- After `a.connect(b)` from a well-formed state, each peer list holds
exactly one entry for the other endpoint. -/
lemma connect_count (st : NetState) (a b : Nat) (ha : a < st.nodes.length)
    (hb : b < st.nodes.length) (hab : a ≠ b) (hwf : Wf st) :
    ((connect st a b).peers a).count b = 1 ∧
      ((connect st a b).peers b).count a = 1 := by
  have hs : a ∈ st.peers b → b ∈ st.peers a := fun h => ((hwf b hb).2 a h).2
  rcases connect_cases st a b ha hab hs with ⟨hmem, heq⟩ | ⟨hnm, hnb, heq⟩
  · rw [heq]
    exact ⟨List.count_eq_one_of_mem (hwf a ha).1 hmem,
      List.count_eq_one_of_mem (hwf b hb).1 ((hwf a ha).2 b hmem).2⟩
  · rw [heq]
    constructor
    · rw [peers_addPeer_ne (st.addPeer a b) b a a (fun h => hab h.symm),
        peers_addPeer_self st a b ha]
      simp [List.count_append, List.count_eq_zero_of_not_mem hnm]
    · rw [peers_addPeer_self (st.addPeer a b) b a (by rw [length_addPeer]; exact hb),
        peers_addPeer_ne st a b b hab]
      simp [List.count_append, List.count_eq_zero_of_not_mem hnb]

/-! Traversal lemmas: the loop never mutates the state, always delivers to
receiver peers, and only recurses into non-receiver peers. -/

lemma sendLoop_state (recur : NetState → Nat → String → Nat → Option (NetState × List Event))
    (hrec : ∀ st p m s r, recur st p m s = some r → r.1 = st)
    (selfR : Nat) (msg : String) (sender : Nat) :
    ∀ (l : List Nat) (st : NetState) (r : NetState × List Event),
      sendLoop recur selfR msg sender st l = some r → r.1 = st := by
  intro l
  induction l with
  | nil =>
    intro st r h
    have h' : some (st, ([] : List Event)) = some r := h
    cases h'
    rfl
  | cons peer rest ih =>
    intro st r h
    simp only [sendLoop] at h
    by_cases h1 : st.role peer = Roles.RECEIVER
    · rw [if_pos h1] at h
      cases hl : sendLoop recur selfR msg sender st rest with
      | none => rw [hl] at h; cases h
      | some r1 =>
        obtain ⟨st1, evs⟩ := r1
        rw [hl] at h
        simp only [Option.some.injEq] at h
        rw [← h]
        exact ih st (st1, evs) hl
    · rw [if_neg h1] at h
      by_cases h2 : peer = selfR
      · rw [if_neg (not_not_intro h2)] at h
        exact ih st r h
      · rw [if_pos h2] at h
        cases hr : recur st peer msg selfR with
        | none => rw [hr] at h; cases h
        | some r1 =>
          obtain ⟨st1, evs1⟩ := r1
          rw [hr] at h
          have e1 : st1 = st := hrec st peer msg selfR (st1, evs1) hr
          simp only [] at h
          cases hl : sendLoop recur selfR msg sender st1 rest with
          | none => rw [hl] at h; cases h
          | some r2 =>
            obtain ⟨st2, evs2⟩ := r2
            rw [hl] at h
            simp only [Option.some.injEq] at h
            rw [← h]
            have e2 : st2 = st1 := ih st1 (st2, evs2) hl
            rw [e2, e1]

lemma send_message_state :
    ∀ (f : Nat) (st : NetState) (n : Nat) (m : String) (s : Nat)
      (r : NetState × List Event), send_message f st n m s = some r → r.1 = st := by
  intro f
  induction f with
  | zero => intro st n m s r h; cases h
  | succ g ih =>
    intro st n m s r h
    exact sendLoop_state (send_message g) ih n m s (st.peers n) st r h

lemma sendLoop_recv_mem (recur : NetState → Nat → String → Nat → Option (NetState × List Event))
    (hrec : ∀ st p m s r, recur st p m s = some r → r.1 = st)
    (selfR : Nat) (msg : String) (sender : Nat) :
    ∀ (l : List Nat) (st : NetState) (r : NetState × List Event),
      sendLoop recur selfR msg sender st l = some r →
      ∀ p, p ∈ l → st.role p = Roles.RECEIVER → Event.recv p sender msg ∈ r.2 := by
  intro l
  induction l with
  | nil => intro st r _ p hp; cases hp
  | cons peer rest ih =>
    intro st r h p hp hrole
    simp only [sendLoop] at h
    by_cases h1 : st.role peer = Roles.RECEIVER
    · rw [if_pos h1] at h
      cases hl : sendLoop recur selfR msg sender st rest with
      | none => rw [hl] at h; cases h
      | some r1 =>
        obtain ⟨st1, evs⟩ := r1
        rw [hl] at h
        simp only [Option.some.injEq] at h
        rw [← h]
        cases List.mem_cons.mp hp with
        | inl hpe => rw [hpe]; exact List.mem_cons_self _ _
        | inr hpr => exact List.mem_cons_of_mem _ (ih st (st1, evs) hl p hpr hrole)
    · rw [if_neg h1] at h
      have hpr : p ∈ rest := by
        cases List.mem_cons.mp hp with
        | inl hpe => exact absurd (hpe ▸ hrole) h1
        | inr hpr => exact hpr
      by_cases h2 : peer = selfR
      · rw [if_neg (not_not_intro h2)] at h
        exact ih st r h p hpr hrole
      · rw [if_pos h2] at h
        cases hr : recur st peer msg selfR with
        | none => rw [hr] at h; cases h
        | some r1 =>
          obtain ⟨st1, evs1⟩ := r1
          rw [hr] at h
          have e1 : st1 = st := hrec st peer msg selfR (st1, evs1) hr
          simp only [] at h
          cases hl : sendLoop recur selfR msg sender st1 rest with
          | none => rw [hl] at h; cases h
          | some r2 =>
            obtain ⟨st2, evs2⟩ := r2
            rw [hl] at h
            simp only [Option.some.injEq] at h
            rw [← h]
            have : Event.recv p sender msg ∈ evs2 := by
              refine ih st1 (st2, evs2) hl p hpr ?_
              rw [e1]; exact hrole
            exact List.mem_cons_of_mem _ (List.mem_append_right _ this)

lemma send_message_recv_mem (f : Nat) (st : NetState) (n : Nat) (m : String)
    (s : Nat) (r : NetState × List Event) (h : send_message f st n m s = some r)
    (p : Nat) (hp : p ∈ st.peers n) (hrole : st.role p = Roles.RECEIVER) :
    Event.recv p s m ∈ r.2 := by
  cases f with
  | zero => cases h
  | succ g =>
    exact sendLoop_recv_mem (send_message g) (send_message_state g) n m s
      (st.peers n) st r h p hp hrole

lemma sendLoop_call_role (recur : NetState → Nat → String → Nat → Option (NetState × List Event))
    (hrecS : ∀ st p m s r, recur st p m s = some r → r.1 = st)
    (hrecC : ∀ st p m s r, recur st p m s = some r →
      ∀ q, Event.call q ∈ r.2 → st.role q ≠ Roles.RECEIVER)
    (selfR : Nat) (msg : String) (sender : Nat) :
    ∀ (l : List Nat) (st : NetState) (r : NetState × List Event),
      sendLoop recur selfR msg sender st l = some r →
      ∀ q, Event.call q ∈ r.2 → st.role q ≠ Roles.RECEIVER := by
  intro l
  induction l with
  | nil =>
    intro st r h q hq
    have h' : some (st, ([] : List Event)) = some r := h
    cases h'
    cases hq
  | cons peer rest ih =>
    intro st r h q hq
    simp only [sendLoop] at h
    by_cases h1 : st.role peer = Roles.RECEIVER
    · rw [if_pos h1] at h
      cases hl : sendLoop recur selfR msg sender st rest with
      | none => rw [hl] at h; cases h
      | some r1 =>
        obtain ⟨st1, evs⟩ := r1
        rw [hl] at h
        simp only [Option.some.injEq] at h
        rw [← h] at hq
        cases List.mem_cons.mp hq with
        | inl he => cases he
        | inr he => exact ih st (st1, evs) hl q he
    · rw [if_neg h1] at h
      by_cases h2 : peer = selfR
      · rw [if_neg (not_not_intro h2)] at h
        exact ih st r h q hq
      · rw [if_pos h2] at h
        cases hr : recur st peer msg selfR with
        | none => rw [hr] at h; cases h
        | some r1 =>
          obtain ⟨st1, evs1⟩ := r1
          rw [hr] at h
          have e1 : st1 = st := hrecS st peer msg selfR (st1, evs1) hr
          simp only [] at h
          cases hl : sendLoop recur selfR msg sender st1 rest with
          | none => rw [hl] at h; cases h
          | some r2 =>
            obtain ⟨st2, evs2⟩ := r2
            rw [hl] at h
            simp only [Option.some.injEq] at h
            rw [← h] at hq
            cases List.mem_cons.mp hq with
            | inl he =>
              cases he
              exact h1
            | inr he =>
              cases List.mem_append.mp he with
              | inl he1 => exact hrecC st peer msg selfR (st1, evs1) hr q he1
              | inr he2 =>
                have := ih st1 (st2, evs2) hl q he2
                rw [e1] at this
                exact this

/-! Divergence: in the chain A–B–C the guard `peer is not self` lets B
forward straight back to A (C is behind A in B's peer list and is never
reached), so the recursion alternates between A and B and exhausts every
fuel; in the receiver-free triangle every node forwards to the next. -/

lemma chain_send_none : ∀ f : Nat,
    (∀ s, send_message f chainSt 0 "hi" s = none) ∧
      (∀ s, send_message f chainSt 1 "hi" s = none) := by
  have hp0 : chainSt.peers 0 = [1] := by decide
  have hp1 : chainSt.peers 1 = [0, 2] := by decide
  have hrole1 : ¬chainSt.role 1 = Roles.RECEIVER := by decide
  have hrole0 : ¬chainSt.role 0 = Roles.RECEIVER := by decide
  intro f
  induction f with
  | zero => exact ⟨fun _ => rfl, fun _ => rfl⟩
  | succ g ih =>
    refine ⟨fun s => ?_, fun s => ?_⟩
    · show sendLoop (send_message g) 0 "hi" s chainSt (chainSt.peers 0) = none
      rw [hp0]
      simp only [sendLoop]
      rw [if_neg hrole1, if_pos (by decide : (1 : Nat) ≠ 0), ih.2 0]
    · show sendLoop (send_message g) 1 "hi" s chainSt (chainSt.peers 1) = none
      rw [hp1]
      simp only [sendLoop]
      rw [if_neg hrole0, if_pos (by decide : (0 : Nat) ≠ 1), ih.1 1]

lemma tri_send_none : ∀ f : Nat,
    (∀ m s, send_message f triSt 0 m s = none) ∧
      ((∀ m s, send_message f triSt 1 m s = none) ∧
        (∀ m s, send_message f triSt 2 m s = none)) := by
  have hp0 : triSt.peers 0 = [1, 2] := by decide
  have hp1 : triSt.peers 1 = [0, 2] := by decide
  have hp2 : triSt.peers 2 = [1, 0] := by decide
  have hr0 : ¬triSt.role 0 = Roles.RECEIVER := by decide
  have hr1 : ¬triSt.role 1 = Roles.RECEIVER := by decide
  intro f
  induction f with
  | zero => exact ⟨fun _ _ => rfl, fun _ _ => rfl, fun _ _ => rfl⟩
  | succ g ih =>
    refine ⟨fun m s => ?_, fun m s => ?_, fun m s => ?_⟩
    · show sendLoop (send_message g) 0 m s triSt (triSt.peers 0) = none
      rw [hp0]
      simp only [sendLoop]
      rw [if_neg hr1, if_pos (by decide : (1 : Nat) ≠ 0), ih.2.1 m 0]
    · show sendLoop (send_message g) 1 m s triSt (triSt.peers 1) = none
      rw [hp1]
      simp only [sendLoop]
      rw [if_neg hr0, if_pos (by decide : (0 : Nat) ≠ 1), ih.1 m 1]
    · show sendLoop (send_message g) 2 m s triSt (triSt.peers 2) = none
      rw [hp2]
      simp only [sendLoop]
      rw [if_neg hr1, if_pos (by decide : (1 : Nat) ≠ 2), ih.2.1 m 2]

lemma send_message_call_role :
    ∀ (f : Nat) (st : NetState) (n : Nat) (m : String) (s : Nat)
      (r : NetState × List Event), send_message f st n m s = some r →
      ∀ q, Event.call q ∈ r.2 → st.role q ≠ Roles.RECEIVER := by
  intro f
  induction f with
  | zero => intro st n m s r h; cases h
  | succ g ih =>
    intro st n m s r h
    exact sendLoop_call_role (send_message g) (send_message_state g) ih
      n m s (st.peers n) st r h

/-! The claims. -/

/-- Claim C1: the spec scenario says `A.send_message("hi", A)` on the chain
A(SENDER)–B(SENDER)–C(RECEIVER) terminates and prints exactly one line.
On the code it does not: the forwarding guard is `peer is not self` (the
comment beside it says "except the sender"), so B forwards straight back
to A before ever reaching C, and the recursion exhausts every stack
depth, printing nothing.  This theorem evaluates the code at the failing
input: for every fuel (recursion-depth bound) the traversal yields no
result. -/
theorem chain_scenario_diverges : ∀ f : Nat, send_message f chainSt 0 "hi" 0 = none :=
  fun f => (chain_send_none f).1 0

/-- Claim C2, counterexample: node N = ref 1 (a `Sender`) with the single
peer R = ref 2 (a `Receiver`) executes `send_message("m", S)` where
S = ref 0 ≠ N.  The receiver is handed sender S — the value passed in to
N — and no receipt citing N itself occurs, refuting "receive_message is
invoked with the sender argument equal to N". -/
theorem recv_sender_counterexample :
    send_message 1 c2St 1 "m" 0 = some (c2St, [Event.recv 2 0 "m"]) ∧
      Event.recv 2 1 "m" ∉ [Event.recv 2 0 "m"] := by decide

/-- Claim C2, amended: whenever a node `n` executes
`send_message(m, s)` and one of its peers `p` has role RECEIVER, that
peer's `receive_message` is invoked with `(m, s)` — the `sender` value
that was passed in to `n`'s own call (the previous hop), not `n` itself:
line 72 of `core.py` forwards its `sender` argument unchanged. -/
theorem recv_gets_passed_sender (f : Nat) (st : NetState) (n : Nat) (m : String)
    (s : Nat) (st' : NetState) (evs : List Event)
    (h : send_message f st n m s = some (st', evs)) (p : Nat)
    (hp : p ∈ st.peers n) (hrole : st.role p = Roles.RECEIVER) :
    Event.recv p s m ∈ evs :=
  send_message_recv_mem f st n m s (st', evs) h p hp hrole

/-- Claim C2, witness: the amended theorem applied to the concrete run
above. -/
theorem recv_gets_passed_sender_witness :
    Event.recv 2 0 "m" ∈ [Event.recv 2 0 "m"] :=
  recv_gets_passed_sender 1 c2St 1 "m" 0 c2St [Event.recv 2 0 "m"]
    (by decide) 2 (by decide) (by decide)

/-- Claim C3: on the star H(SENDER)–R1(RECEIVER), H–R2(RECEIVER),
`H.send_message("x", H)` terminates (fuel 1 suffices, there is no
recursive call) with exactly two receipt events, one per receiver, each
citing H (id 100) as sender, in peer-list order — for both insertion
orders of R1, R2; the printed lines are exactly the two specified
strings and nothing else. -/
theorem star_prints_two_lines :
    (send_message 1 starA 0 "x" 0 =
        some (starA, [Event.recv 1 0 "x", Event.recv 2 0 "x"]) ∧
      printedLines starA [Event.recv 1 0 "x", Event.recv 2 0 "x"] =
        ["Receiver id=101 received a message from sender id=100: x",
          "Receiver id=102 received a message from sender id=100: x"]) ∧
    (send_message 1 starB 0 "x" 0 =
        some (starB, [Event.recv 2 0 "x", Event.recv 1 0 "x"]) ∧
      printedLines starB [Event.recv 2 0 "x", Event.recv 1 0 "x"] =
        ["Receiver id=102 received a message from sender id=100: x",
          "Receiver id=101 received a message from sender id=100: x"]) := by
  decide

/-- Claim C4: on the receiver-free triangle of three SENDER nodes, a
`send_message` started at any of the three nodes (with any message and
any incoming sender) exceeds every recursion-depth bound: the embedded
traversal has no result for any finite fuel. -/
theorem triangle_send_diverges :
    ∀ (f : Nat) (m : String) (s : Nat),
      send_message f triSt 0 m s = none ∧ send_message f triSt 1 m s = none ∧
        send_message f triSt 2 m s = none :=
  fun f m s =>
    ⟨(tri_send_none f).1 m s, (tri_send_none f).2.1 m s, (tri_send_none f).2.2 m s⟩

/-- Claim C5: `set_role` fails exactly when the current role is
WORD_GENERATOR (raising before any mutation, so the node is unchanged);
for any other current role it succeeds unconditionally and afterwards the
role field equals the new role. -/
theorem set_role_spec (st : NetState) (n : Nat) (r : Roles)
    (hn : n < st.nodes.length) :
    (st.role n = Roles.WORD_GENERATOR →
      set_role st n r = Except.error "WordGenerator role cannot be changed.") ∧
    (∀ e, set_role st n r = Except.error e → st.role n = Roles.WORD_GENERATOR) ∧
    (st.role n ≠ Roles.WORD_GENERATOR →
      set_role st n r = Except.ok (st.setRoleField n r) ∧
        (st.setRoleField n r).role n = r) := by
  refine ⟨fun h => by simp [set_role, h], fun e he => ?_, fun h => ?_⟩
  · by_contra hne
    rw [set_role, if_neg hne] at he
    cases he
  · rw [set_role, if_neg h]
    exact ⟨rfl, role_setRoleField_self st n r hn⟩

/-- Claim C5, witness: the theorem applied to a concrete sender node. -/
theorem set_role_spec_witness :
    (wSt.setRoleField 0 Roles.RECEIVER).role 0 = Roles.RECEIVER :=
  ((set_role_spec wSt 0 Roles.RECEIVER (by decide)).2.2 (by decide)).2

/-- Claim C6: from a well-formed state (peer lists duplicate-free, valid
and symmetric — the invariant `connect` maintains), one call
`a.connect(b)` with `a ≠ b` ends with `b` in `a`'s peer list and `a` in
`b`'s peer list. -/
theorem connect_symmetric (st : NetState) (a b : Nat) (ha : a < st.nodes.length)
    (hb : b < st.nodes.length) (hab : a ≠ b) (hwf : Wf st) :
    b ∈ (connect st a b).peers a ∧ a ∈ (connect st a b).peers b :=
  connect_mem st a b ha hb hab hwf

/-- Claim C6, witness: connecting two fresh sender objects. -/
theorem connect_symmetric_witness :
    1 ∈ (connect wSt2 0 1).peers 0 ∧ 0 ∈ (connect wSt2 0 1).peers 1 :=
  connect_symmetric wSt2 0 1 (by decide) (by decide) (by decide) (by decide)

/-- Claim C7: `connect` is idempotent — after `a.connect(b)` each of the
two peer lists holds exactly one entry for the other endpoint, and both a
repeated `a.connect(b)` and the reverse `b.connect(a)` are no-ops — and
the membership check is by object identity, not id value: two distinct
objects sharing id 9 (refs 1 and 2 of `sameIdInit`) are both added as
peers of ref 0. -/
theorem connect_idempotent (st : NetState) (a b : Nat) (ha : a < st.nodes.length)
    (hb : b < st.nodes.length) (hab : a ≠ b) (hwf : Wf st) :
    (((connect (connect st a b) a b).peers a).count b = 1 ∧
      ((connect (connect st a b) a b).peers b).count a = 1 ∧
      connect (connect st a b) a b = connect st a b ∧
      connect (connect st a b) b a = connect st a b) ∧
    ((connect (connect sameIdInit 0 1) 0 2).peers 0 = [1, 2] ∧
      sameIdInit.idOf 1 = sameIdInit.idOf 2 ∧ (1 : Nat) ≠ 2) := by
  obtain ⟨hma, hmb⟩ := connect_mem st a b ha hb hab hwf
  have h2 : connect (connect st a b) a b = connect st a b :=
    connect_noop (connect st a b) a b hma
  have h3 : connect (connect st a b) b a = connect st a b :=
    connect_noop (connect st a b) b a hmb
  obtain ⟨hc1, hc2⟩ := connect_count st a b ha hb hab hwf
  refine ⟨⟨?_, ?_, h2, h3⟩, by decide⟩
  · rw [h2]; exact hc1
  · rw [h2]; exact hc2

/-- Claim C7, witness: two fresh sender objects connected twice. -/
theorem connect_idempotent_witness :
    ((connect (connect wSt2 0 1) 0 1).peers 0).count 1 = 1 :=
  (connect_idempotent wSt2 0 1 (by decide) (by decide) (by decide) (by decide)).1.1

/-- Claim C8: a receiver is terminal — in any completed `send_message`
traversal, every recorded recursive invocation (`Event.call`) targets a
node whose role is not RECEIVER; receiver peers only ever get
`receive_message`. -/
theorem receiver_is_terminal (f : Nat) (st : NetState) (n : Nat) (m : String)
    (s : Nat) (st' : NetState) (evs : List Event)
    (h : send_message f st n m s = some (st', evs)) (q : Nat)
    (hq : Event.call q ∈ evs) : st.role q ≠ Roles.RECEIVER :=
  send_message_call_role f st n m s (st', evs) h q hq

/-- Claim C8, witness: a run containing a recursive call (ref 0 forwards
to ref 1, which delivers to the receiver ref 2). -/
theorem receiver_is_terminal_witness : c8St.role 1 ≠ Roles.RECEIVER :=
  receiver_is_terminal 2 c8St 0 "m" 0 c8St [Event.call 1, Event.recv 2 0 "m"]
    (by decide) 1 (by decide)

/-- Claim C9: a terminating `send_message` run (including the triggered
`receive_message` calls) mutates no node state: the final heap — every
node's id, role and peer list — equals the initial one; only the event
trace is produced. -/
theorem send_message_no_mutation (f : Nat) (st : NetState) (n : Nat) (m : String)
    (s : Nat) (st' : NetState) (evs : List Event)
    (h : send_message f st n m s = some (st', evs)) : st' = st :=
  send_message_state f st n m s (st', evs) h

/-- Claim C9, witness: the star run leaves the heap unchanged. -/
theorem send_message_no_mutation_witness :
    send_message 1 starA 0 "x" 0 =
        some (starA, [Event.recv 1 0 "x", Event.recv 2 0 "x"]) ∧
      starA = starA :=
  ⟨by decide, send_message_no_mutation 1 starA 0 "x" 0 starA
    [Event.recv 1 0 "x", Event.recv 2 0 "x"] (by decide)⟩

/-- Claim C10: WORD_GENERATOR is absorbing — `set_role(WORD_GENERATOR)`
succeeds on any node whose current role differs (making the role
WORD_GENERATOR even though the object was not constructed as a
`WordGenerator`); once the role is WORD_GENERATOR every further
`set_role` on that node fails, and neither `connect` nor `send_message`
ever changes any role field. -/
theorem wg_role_absorbing (st : NetState) (n : Nat) (hn : n < st.nodes.length) :
    (st.role n ≠ Roles.WORD_GENERATOR →
      set_role st n Roles.WORD_GENERATOR =
          Except.ok (st.setRoleField n Roles.WORD_GENERATOR) ∧
        (st.setRoleField n Roles.WORD_GENERATOR).role n = Roles.WORD_GENERATOR) ∧
    (st.role n = Roles.WORD_GENERATOR →
      ∀ r, set_role st n r = Except.error "WordGenerator role cannot be changed.") ∧
    (∀ a b, (connect st a b).role n = st.role n) ∧
    (∀ (f : Nat) (x : Nat) (m : String) (s : Nat) (st' : NetState) (evs : List Event),
      send_message f st x m s = some (st', evs) → st'.role n = st.role n) := by
  refine ⟨fun h => ?_, fun h r => by simp [set_role, h], fun a b => role_connect st a b n,
    fun f x m s st' evs hsend => ?_⟩
  · rw [set_role, if_neg h]
    exact ⟨rfl, role_setRoleField_self st n Roles.WORD_GENERATOR hn⟩
  · have h' : st' = st := send_message_state f st x m s (st', evs) hsend
    rw [h']

/-- Claim C10, witness: entering the absorbing state on a concrete sender
node. -/
theorem wg_role_absorbing_witness :
    set_role wSt 0 Roles.WORD_GENERATOR =
        Except.ok (wSt.setRoleField 0 Roles.WORD_GENERATOR) ∧
      (wSt.setRoleField 0 Roles.WORD_GENERATOR).role 0 = Roles.WORD_GENERATOR :=
  (wg_role_absorbing wSt 0 (by decide)).1 (by decide)
